import Mathlib

/-!
# Verification of the AutoDataClean tabular cleaning script

Shallow embedding of `auto_data_clean.py`: a table is an ordered list of
rows, each row a list of optional cell values aligned with the column
names. Duplicate removal (`drop_duplicates`, first occurrence kept) and
null-row removal (`dropna`) are modelled as pure row-list transformations;
pandas treats missing values at the same position as equal for duplicate
detection, which matches equality on `Option`.
-/

namespace AutoClean

/-- A cell value of the example tables: an integer or a string.
Used for concrete fixtures; the operations are generic in the cell type. -/
inductive Val where
  | i : Int → Val
  | s : String → Val
deriving DecidableEq, Repr

/-- A row: one optional value per column, in column order.
`none` is a missing value (pandas `NaN`/`None`). -/
abbrev Row (α : Type) := List (Option α)

/-- A pandas DataFrame, reduced to what the script observes:
ordered column names and an ordered list of rows. -/
structure Table (α : Type) where
  columns : List String
  rows : List (Row α)
deriving DecidableEq, Repr

/-- `df.isnull().any(axis=1)` for one row: does it contain a missing value? -/
def rowHasNull {α : Type} (r : Row α) : Bool :=
  r.any (fun v => v.isNone)

/-- Core of `df.drop_duplicates()`: keep each row whose value has not been
seen before (`seen` holds the values of the earlier rows); pandas keeps the
first occurrence. When the head is kept it is added to `seen`; when it is
dropped, `seen` already contains it, so `seen` always holds exactly the
values of the rows already scanned. -/
def dedupAux {β : Type} [DecidableEq β] (seen : List β) : List β → List β
  | [] => []
  | x :: xs => if x ∈ seen then dedupAux seen xs else x :: dedupAux (x :: seen) xs

/-- Core of `df.duplicated().sum()`: count the rows equal to some strictly
earlier row. Mirrors the `seen` discipline of `dedupAux`. -/
def dupCountAux {β : Type} [DecidableEq β] (seen : List β) : List β → Nat
  | [] => 0
  | x :: xs => if x ∈ seen then 1 + dupCountAux seen xs else dupCountAux (x :: seen) xs

/-- `df.drop_duplicates(inplace=True)`: remove every row equal to an earlier
row, keeping first occurrences, preserving order. -/
def drop_duplicates {α : Type} [DecidableEq α] (df : Table α) : Table α :=
  ⟨df.columns, dedupAux [] df.rows⟩

/-- `df.dropna(inplace=True)`: remove every row containing a missing value. -/
def dropna {α : Type} (df : Table α) : Table α :=
  ⟨df.columns, df.rows.filter (fun r => !rowHasNull r)⟩

/-- The cleaner's configuration: the two flags set in `__init__`. -/
structure AutoDataClean where
  remove_duplicates : Bool
  remove_nulls : Bool
deriving DecidableEq, Repr

/-- The figures `clean` prints: rows removed by each stage (`none` when the
stage is disabled, so nothing is printed), plus before/after row counts. -/
structure CleanReport where
  duplicates_removed : Option Nat
  nulls_removed : Option Nat
  original_rows : Nat
  final_rows : Nat
deriving DecidableEq, Repr

/-- First stage of `clean`: the `if self.remove_duplicates` block. -/
def stageDedup {α : Type} [DecidableEq α] (c : AutoDataClean) (df : Table α) : Table α :=
  if c.remove_duplicates then drop_duplicates df else df

/-- Second stage of `clean`: the `if self.remove_nulls` block. -/
def stageDropna {α : Type} (c : AutoDataClean) (df : Table α) : Table α :=
  if c.remove_nulls then dropna df else df

/-- `AutoDataClean.clean` applied to the working frame (after the
`inplace` handling): dedup stage, then dropna stage, with the printed
figures as a report. `original_rows = len(df)` up front,
`rows_before_null_removal` is the dedup stage's output length. -/
def AutoDataClean.clean {α : Type} [DecidableEq α] (c : AutoDataClean) (df : Table α) :
    Table α × CleanReport :=
  let original_rows := df.rows.length
  let df1 := stageDedup c df
  let df2 := stageDropna c df1
  (df2,
   ⟨if c.remove_duplicates then some (original_rows - df1.rows.length) else none,
    if c.remove_nulls then some (df1.rows.length - df2.rows.length) else none,
    original_rows,
    df2.rows.length⟩)

/-- Result of one call `cleaner.clean(df, inplace)`, including the state of
the caller's frame after the call. -/
structure CleanCallOutcome (α : Type) where
  result : Table α
  callerTable : Table α
  resultIsCallerObject : Bool
  report : CleanReport
deriving DecidableEq, Repr

/-- One call `cleaner.clean(df, inplace)` with the reference semantics of
the Python method: when `inplace` is false, `df = df.copy()` rebinds the
local name to a fresh copy, the subsequent in-place pandas operations act
on that copy, and the caller's object is untouched; when `inplace` is true,
they mutate the caller's object, which is also the returned value. -/
def AutoDataClean.cleanCall {α : Type} [DecidableEq α] (c : AutoDataClean)
    (df : Table α) (inplace : Bool) : CleanCallOutcome α :=
  let out := c.clean df
  if inplace then ⟨out.1, out.1, true, out.2⟩ else ⟨out.1, df, false, out.2⟩

/-- `cleaner.clean(df, inplace)` against an object store: the caller's
frame is the cell at address `a` of a store of tables. With
`inplace=true`, `drop_duplicates(inplace=True)`/`dropna(inplace=True)`
mutate that cell, and its address is returned. With `inplace=false`,
`df = df.copy()` allocates a fresh object with the same contents, the
stages run on that fresh object, and its (new) address is returned; the
caller's cell is never written. Returns (store after, returned address,
report). -/
def cleanOnStore {α : Type} [DecidableEq α] (c : AutoDataClean)
    (st : List (Table α)) (a : Nat) (inplace : Bool) :
    List (Table α) × Nat × CleanReport :=
  let df := (st[a]?).getD ⟨[], []⟩
  let res := c.clean df
  if inplace then (st.set a res.1, a, res.2)
  else (st ++ [res.1], st.length, res.2)

/-- The dictionary returned by `AutoDataClean.get_summary`. -/
structure Summary where
  total_rows : Nat
  duplicate_rows : Nat
  rows_with_nulls : Nat
  null_counts_per_column : List (String × Nat)
deriving DecidableEq, Repr

/-- `AutoDataClean.get_summary(df)`: `len(df)`, `df.duplicated().sum()`,
`df.isnull().any(axis=1).sum()`, and `df.isnull().sum().to_dict()`
(per-column missing-value counts, in column order). A row shorter than the
column list reads as missing in the absent positions. -/
def get_summary {α : Type} [DecidableEq α] (df : Table α) : Summary :=
  ⟨df.rows.length,
   dupCountAux [] df.rows,
   (df.rows.filter (fun r => rowHasNull r)).length,
   df.columns.enum.map (fun p => (p.2, (df.rows.filter (fun r => (r.getD p.1 none).isNone)).length))⟩

/-- Does `s` start with the pattern `pat`? (Character-list matching used to
model Python's `str.replace` scan.) First argument is the pattern. -/
def startsWith : List Char → List Char → Bool
  | [], _ => true
  | _ :: _, [] => false
  | a :: as, b :: bs => a == b && startsWith as bs

/-- Fuel-indexed body of Python's `s.replace(old, new)`: scan left to
right; at each position, if a non-empty `old` matches, emit `new` and skip
past the match (the emitted text is not rescanned), otherwise emit the
character and advance by one. Each step consumes at least one character of
`s`, so fuel `s.length` is never exhausted (the fuel is only a structural
termination device; see `pyReplace_cons_eq`). -/
def pyReplaceAux (new old : List Char) : Nat → List Char → List Char
  | 0, s => s
  | _ + 1, [] => []
  | fuel + 1, c :: rest =>
    if old.length ≠ 0 ∧ startsWith old (c :: rest) = true then
      new ++ pyReplaceAux new old fuel ((c :: rest).drop old.length)
    else
      c :: pyReplaceAux new old fuel rest

/-- Python's `s.replace(old, new)` for a non-empty `old` (the script always
calls it with `old = ".csv"`). -/
def pyReplace (s old new : List Char) : List Char :=
  pyReplaceAux new old s.length s

/-- The output-path derivation in `clean_data` when no output path is
given: `filepath.replace('.csv', '_cleaned.csv')`. -/
def derivedOutputPath (filepath : List Char) : List Char :=
  pyReplace filepath (String.toList ".csv") (String.toList "_cleaned.csv")

/-- Modelled from the spec: the spec's output-path rule, replacing only the
FIRST occurrence of `.csv` (the code has no such function; this is the
comparison point for the refinement claim about `clean_data`). -/
def replaceFirstOcc (s old new : List Char) : List Char :=
  match s with
  | [] => []
  | c :: rest =>
    if startsWith old (c :: rest) then new ++ (c :: rest).drop old.length
    else c :: replaceFirstOcc rest old new

/-- The spec's first-occurrence output-path rule. -/
def specFirstOccOutputPath (filepath : List Char) : List Char :=
  replaceFirstOcc filepath (String.toList ".csv") (String.toList "_cleaned.csv")

/-! ## Fixtures -/

/-- Row (1, "Alice", 25, 50000) of the seven-row example fixture. -/
def rowAlice : Row Val := [some (.i 1), some (.s "Alice"), some (.i 25), some (.i 50000)]

/-- Row (2, "Bob", 30, 60000), present twice in the fixture. -/
def rowBob : Row Val := [some (.i 2), some (.s "Bob"), some (.i 30), some (.i 60000)]

/-- Row (3, "Charlie", null, 70000). -/
def rowCharlie : Row Val := [some (.i 3), some (.s "Charlie"), none, some (.i 70000)]

/-- Row (4, null, 28, 55000). -/
def rowNoName : Row Val := [some (.i 4), none, some (.i 28), some (.i 55000)]

/-- Row (5, "Eve", 35, null), present twice in the fixture. -/
def rowEve : Row Val := [some (.i 5), some (.s "Eve"), some (.i 35), none]

/-- The seven-row fixture of `example.py` and of the spec's scenario. -/
def exampleTable : Table Val :=
  ⟨["ID", "Name", "Age", "Salary"],
   [rowAlice, rowBob, rowBob, rowCharlie, rowNoName, rowEve, rowEve]⟩

/-- The default configuration: both cleaning stages enabled. -/
def bothFlags : AutoDataClean := ⟨true, true⟩

/-- Two-row fixture for stage attribution: the second row is an exact
duplicate of the first, and both contain a null. -/
def nullTwinTable : Table Val :=
  ⟨["A", "B"], [[some (.i 1), none], [some (.i 1), none]]⟩

/-- The spec's duplicate count, read off directly: the number of positions
`(i, x)` of the list whose element `x` equals some strictly earlier
element, i.e. occurs among the first `i` elements (so a first occurrence
is never counted). -/
def specDuplicateRowCount {β : Type} [DecidableEq β] (l : List β) : Nat :=
  l.enum.countP (fun p => decide (p.2 ∈ l.take p.1))

/-! ## Lemmas about the dedup scan -/

theorem dedupAux_sublist {β : Type} [DecidableEq β] (seen l : List β) :
    List.Sublist (dedupAux seen l) l := by
  induction l generalizing seen with
  | nil => exact List.Sublist.refl _
  | cons x xs ih =>
    rw [dedupAux]
    by_cases h : x ∈ seen
    · rw [if_pos h]; exact List.Sublist.cons x (ih seen)
    · rw [if_neg h]; exact List.Sublist.cons₂ x (ih (x :: seen))

theorem not_mem_seen_of_mem_dedupAux {β : Type} [DecidableEq β]
    {seen l : List β} {x : β} (hx : x ∈ dedupAux seen l) : x ∉ seen := by
  induction l generalizing seen with
  | nil => simp [dedupAux] at hx
  | cons y ys ih =>
    rw [dedupAux] at hx
    by_cases h : y ∈ seen
    · rw [if_pos h] at hx; exact ih hx
    · rw [if_neg h] at hx
      rcases List.mem_cons.mp hx with rfl | hx'
      · exact h
      · intro hs
        exact ih hx' (List.mem_cons_of_mem _ hs)

theorem dedupAux_nodup {β : Type} [DecidableEq β] (seen l : List β) :
    (dedupAux seen l).Nodup := by
  induction l generalizing seen with
  | nil => simp [dedupAux]
  | cons y ys ih =>
    rw [dedupAux]
    by_cases h : y ∈ seen
    · rw [if_pos h]; exact ih seen
    · rw [if_neg h]
      refine List.nodup_cons.mpr ⟨fun hy => ?_, ih (y :: seen)⟩
      exact not_mem_seen_of_mem_dedupAux hy (List.mem_cons_self y seen)

theorem dedupAux_eq_self {β : Type} [DecidableEq β] {seen l : List β}
    (hl : l.Nodup) (hs : ∀ x ∈ l, x ∉ seen) : dedupAux seen l = l := by
  induction l generalizing seen with
  | nil => rfl
  | cons y ys ih =>
    rw [dedupAux, if_neg (hs y (List.mem_cons_self y ys))]
    have hy : y ∉ ys := (List.nodup_cons.mp hl).1
    congr 1
    refine ih (List.nodup_cons.mp hl).2 (fun x hx => ?_)
    intro hmem
    rcases List.mem_cons.mp hmem with rfl | hmem'
    · exact hy hx
    · exact hs x (List.mem_cons_of_mem _ hx) hmem'

theorem dedupAux_nil_of_nodup {β : Type} [DecidableEq β] {l : List β}
    (hl : l.Nodup) : dedupAux [] l = l :=
  dedupAux_eq_self hl (fun x _ => List.not_mem_nil x)

theorem filter_self_idem {β : Type} (p : β → Bool) (l : List β) :
    (l.filter p).filter p = l.filter p := by
  rw [List.filter_filter]
  exact List.filter_congr (fun a _ => by cases p a <;> rfl)

/-! ## The duplicate figure as a direct positional count -/

theorem dupCountAux_eq_countP {β : Type} [DecidableEq β] (seen l : List β) :
    dupCountAux seen l =
      l.enum.countP (fun p => decide (p.2 ∈ seen) || decide (p.2 ∈ l.take p.1)) := by
  induction l generalizing seen with
  | nil => rfl
  | cons x xs ih =>
    rw [List.enum_cons', List.countP_cons, List.countP_map]
    have hcomp : ((fun p : Nat × β => decide (p.2 ∈ seen) || decide (p.2 ∈ (x :: xs).take p.1)) ∘
          (Prod.map (· + 1) id))
        = (fun p : Nat × β => decide (p.2 ∈ seen) || decide (p.2 ∈ x :: xs.take p.1)) := by
      funext p
      rcases p with ⟨i, y⟩
      simp [List.take_succ_cons]
    rw [hcomp]
    by_cases h : x ∈ seen
    · rw [dupCountAux, if_pos h, ih seen]
      have hps : (fun p : Nat × β => decide (p.2 ∈ seen) || decide (p.2 ∈ x :: xs.take p.1))
          = (fun p : Nat × β => decide (p.2 ∈ seen) || decide (p.2 ∈ xs.take p.1)) := by
        funext p
        rcases p with ⟨i, y⟩
        simp only [List.mem_cons]
        by_cases hy : y = x
        · subst hy; simp [h]
        · simp [hy]
      rw [hps]
      simp [h, Nat.add_comm]
    · rw [dupCountAux, if_neg h, ih (x :: seen)]
      have hps : (fun p : Nat × β => decide (p.2 ∈ x :: seen) || decide (p.2 ∈ xs.take p.1))
          = (fun p : Nat × β => decide (p.2 ∈ seen) || decide (p.2 ∈ x :: xs.take p.1)) := by
        funext p
        rcases p with ⟨i, y⟩
        simp only [List.mem_cons]
        by_cases hy : y = x
        · subst hy; simp [h]
        · simp [hy]
      rw [← hps]
      simp [h]

theorem dupCount_eq_spec {β : Type} [DecidableEq β] (l : List β) :
    dupCountAux [] l = specDuplicateRowCount l := by
  rw [dupCountAux_eq_countP, specDuplicateRowCount]
  congr 1

theorem rowHasNull_eq_decide {α : Type} [DecidableEq α] (r : Row α) :
    rowHasNull r = decide (∃ v ∈ r, v = none) := by
  rw [rowHasNull]
  cases hb : r.any (fun v => v.isNone) with
  | true =>
    obtain ⟨v, hv, hn⟩ := List.any_eq_true.mp hb
    exact (decide_eq_true ⟨v, hv, Option.isNone_iff_eq_none.mp hn⟩).symm
  | false =>
    symm
    rw [decide_eq_false_iff_not]
    rintro ⟨v, hv, rfl⟩
    exact (List.any_eq_false.mp hb none hv) rfl

theorem isNone_eq_decide {α : Type} [DecidableEq α] (o : Option α) :
    o.isNone = decide (o = none) := by
  cases o <;> simp

/-! ## Lemmas about the replace scan -/

theorem pyReplaceAux_nil (new old : List Char) (fuel : Nat) :
    pyReplaceAux new old fuel [] = [] := by
  cases fuel <;> rfl

theorem pyReplace_nil (old new : List Char) : pyReplace [] old new = [] := rfl

theorem pyReplaceAux_fuel_irrel (new old : List Char) (hold : old ≠ []) :
    ∀ (fuel fuel' : Nat) (s : List Char), s.length ≤ fuel → s.length ≤ fuel' →
      pyReplaceAux new old fuel s = pyReplaceAux new old fuel' s := by
  intro fuel
  induction fuel with
  | zero =>
    intro fuel' s hs _
    have hnil : s = [] := List.eq_nil_of_length_eq_zero (Nat.le_zero.mp hs)
    subst hnil
    rw [pyReplaceAux_nil, pyReplaceAux_nil]
  | succ f ih =>
    intro fuel' s hs hs'
    cases s with
    | nil => rw [pyReplaceAux_nil, pyReplaceAux_nil]
    | cons c rest =>
      cases fuel' with
      | zero => simp at hs'
      | succ f' =>
        have hone : 1 ≤ old.length := by
          cases old with
          | nil => exact absurd rfl hold
          | cons a as => simp
        simp only [List.length_cons] at hs hs'
        simp only [pyReplaceAux]
        have hd : ((c :: rest).drop old.length).length = rest.length + 1 - old.length := by
          rw [List.length_drop, List.length_cons]
        by_cases h : old.length ≠ 0 ∧ startsWith old (c :: rest) = true
        · rw [if_pos h, if_pos h]
          congr 1
          apply ih <;> omega
        · rw [if_neg h, if_neg h]
          congr 1
          apply ih <;> omega

theorem pyReplace_cons_eq {old : List Char} (hold : old ≠ [])
    (c : Char) (rest new : List Char) :
    pyReplace (c :: rest) old new =
      if startsWith old (c :: rest) = true then
        new ++ pyReplace ((c :: rest).drop old.length) old new
      else c :: pyReplace rest old new := by
  have hone : old.length ≠ 0 := by
    cases old with
    | nil => exact absurd rfl hold
    | cons a as => simp
  have hd : ((c :: rest).drop old.length).length ≤ rest.length := by
    rw [List.length_drop, List.length_cons]
    omega
  show pyReplaceAux new old (c :: rest).length (c :: rest) = _
  simp only [List.length_cons, pyReplaceAux]
  by_cases h : startsWith old (c :: rest) = true
  · rw [if_pos ⟨hone, h⟩, if_pos h]
    congr 1
    exact pyReplaceAux_fuel_irrel new old hold _ _ _ hd (le_refl _)
  · rw [if_neg (fun hc => h hc.2), if_neg h]
    congr 1

theorem startsWith_cons_ne (a c : Char) (o rest : List Char) (h : c ≠ a) :
    startsWith (a :: o) (c :: rest) = false := by
  have hab : (a == c) = false := beq_eq_false_iff_ne.mpr (fun he => h he.symm)
  simp only [startsWith, hab, Bool.false_and]

theorem startsWith_append_self (pat rest : List Char) :
    startsWith pat (pat ++ rest) = true := by
  induction pat with
  | nil => rfl
  | cons a as ih => simp [startsWith, ih]

theorem pyReplace_skip_no_dot (o new : List Char) :
    ∀ (p s : List Char), (∀ c ∈ p, c ≠ '.') →
      pyReplace (p ++ s) ('.' :: o) new = p ++ pyReplace s ('.' :: o) new := by
  intro p
  induction p with
  | nil => intro s _; rfl
  | cons c p' ih =>
    intro s hp
    rw [List.cons_append, pyReplace_cons_eq (by simp) c (p' ++ s) new,
      startsWith_cons_ne '.' c o _ (hp c (List.mem_cons_self c p')),
      if_neg Bool.false_ne_true, ih s (fun x hx => hp x (List.mem_cons_of_mem c hx)),
      List.cons_append]

theorem pyReplace_append_match (old q new : List Char) (hold : old ≠ []) :
    pyReplace (old ++ q) old new = new ++ pyReplace q old new := by
  cases old with
  | nil => exact absurd rfl hold
  | cons a o' =>
    rw [List.cons_append, pyReplace_cons_eq hold a (o' ++ q) new]
    have h1 : startsWith (a :: o') (a :: (o' ++ q)) = true := by
      rw [← List.cons_append]
      exact startsWith_append_self _ _
    rw [if_pos h1]
    congr 1
    rw [← List.cons_append, List.drop_left]

/-! ## Theorems -/

/-- C1, counterexample. On the spec's seven-row fixture the code does NOT
return rows_with_nulls = 2, nulls_removed = 2 and final_rows = 3 as the
claim states: four of the seven rows contain a null, so after the two
duplicates are dropped three null rows remain to be removed, leaving two. -/
theorem c1_fixture_figures_counterexample :
    ¬((get_summary exampleTable).rows_with_nulls = 2 ∧
      ((bothFlags.clean exampleTable).2).nulls_removed = some 2 ∧
      ((bothFlags.clean exampleTable).2).final_rows = 3) := by
  decide

/-- C1, amended: on the seven-row fixture, `get_summary` returns
total_rows = 7, duplicate_rows = 2, rows_with_nulls = 4 (and per-column
null counts 0, 1, 1, 2), and `clean` with both flags removes 2 duplicate
rows, then 3 null-containing rows from the remaining 5, reporting
duplicates_removed = 2, nulls_removed = 3, original_rows = 7,
final_rows = 2, keeping exactly the Alice and Bob rows. -/
theorem c1_fixture_figures :
    get_summary exampleTable =
      ⟨7, 2, 4, [("ID", 0), ("Name", 1), ("Age", 1), ("Salary", 2)]⟩ ∧
    bothFlags.clean exampleTable =
      (⟨["ID", "Name", "Age", "Salary"], [rowAlice, rowBob]⟩,
       ⟨some 2, some 3, 7, 2⟩) := by
  exact ⟨rfl, rfl⟩

/-- Copy-vs-mutate semantics of `clean`, call-outcome view (see
`clean_frame_semantics` for the store view). -/
theorem cleanCall_copy_vs_inplace {α : Type} [DecidableEq α]
    (c : AutoDataClean) (df : Table α) :
    (c.cleanCall df false).callerTable = df ∧
    (c.cleanCall df false).resultIsCallerObject = false ∧
    (c.cleanCall df true).callerTable = (c.cleanCall df true).result ∧
    (c.cleanCall df true).resultIsCallerObject = true := by
  exact ⟨rfl, rfl, rfl, rfl⟩

/-- C4: copy-vs-mutate semantics of `clean`, as a frame property over an
object store. With `inplace = false` the caller's cell still holds the
original table (unchanged in rows and content) after the call, and the
returned table is a distinct, freshly allocated object holding the
filtered result; with `inplace = true` the returned address is the
caller's own (the same object), and that cell now holds the filtered
result. -/
theorem clean_frame_semantics {α : Type} [DecidableEq α] (c : AutoDataClean)
    (st : List (Table α)) (a : Nat) (h : a < st.length) :
    ((cleanOnStore c st a false).1)[a]? = st[a]? ∧
    (cleanOnStore c st a false).2.1 ≠ a ∧
    ((cleanOnStore c st a false).1)[(cleanOnStore c st a false).2.1]? =
      some (c.clean ((st[a]?).getD ⟨[], []⟩)).1 ∧
    (cleanOnStore c st a true).2.1 = a ∧
    ((cleanOnStore c st a true).1)[a]? =
      some (c.clean ((st[a]?).getD ⟨[], []⟩)).1 := by
  refine ⟨?_, ?_, ?_, rfl, ?_⟩
  · exact List.getElem?_append_left h
  · exact (Nat.ne_of_lt h).symm
  · exact List.getElem?_concat_length _ _
  · exact List.getElem?_set_self h

/-- Witness for `clean_frame_semantics`: the two-row null-twin fixture
stored at address 0 of a one-cell store, cleaned with both flags. -/
theorem clean_frame_semantics_witness :
    0 < [nullTwinTable].length ∧
    (((cleanOnStore bothFlags [nullTwinTable] 0 false).1)[0]? = [nullTwinTable][0]? ∧
     (cleanOnStore bothFlags [nullTwinTable] 0 false).2.1 ≠ 0 ∧
     ((cleanOnStore bothFlags [nullTwinTable] 0 false).1)[(cleanOnStore bothFlags [nullTwinTable] 0 false).2.1]? =
       some (bothFlags.clean (([nullTwinTable][0]?).getD ⟨[], []⟩)).1 ∧
     (cleanOnStore bothFlags [nullTwinTable] 0 true).2.1 = 0 ∧
     ((cleanOnStore bothFlags [nullTwinTable] 0 true).1)[0]? =
       some (bothFlags.clean (([nullTwinTable][0]?).getD ⟨[], []⟩)).1) :=
  ⟨by decide, clean_frame_semantics bothFlags [nullTwinTable] 0 (by decide)⟩

/-- C6: with both flags enabled, `clean` is the composition
dropna ∘ drop_duplicates (duplicates first, then nulls); on the two-row
fixture whose second row exactly duplicates a null-containing first row,
the duplicate is removed and counted at the duplicate stage
(duplicates_removed = 1), not the null stage (nulls_removed = 1, for the
surviving first row only). -/
theorem clean_dedup_before_dropna :
    (∀ (α : Type) [DecidableEq α] (df : Table α),
        ((AutoDataClean.mk true true).clean df).1 = dropna (drop_duplicates df)) ∧
    ((AutoDataClean.mk true true).clean nullTwinTable).2 = ⟨some 1, some 1, 2, 0⟩ := by
  exact ⟨fun α _ df => rfl, rfl⟩

/-- C7, counterexample. On the input path "data.csv.csv" the code
(`filepath.replace('.csv', '_cleaned.csv')`) rewrites BOTH occurrences of
".csv", while the claim's first-occurrence rule would rewrite only the
first; the two results differ. -/
theorem clean_data_output_path_counterexample :
    derivedOutputPath (String.toList "data.csv.csv") =
      String.toList "data_cleaned.csv_cleaned.csv" ∧
    specFirstOccOutputPath (String.toList "data.csv.csv") =
      String.toList "data_cleaned.csv.csv" ∧
    derivedOutputPath (String.toList "data.csv.csv") ≠
      specFirstOccOutputPath (String.toList "data.csv.csv") := by
  exact ⟨rfl, rfl, by decide⟩

/-- C7, amended: when `clean_data` is called with no output path, the
output path is Python's `filepath.replace('.csv', '_cleaned.csv')`, which
rewrites EVERY (left-to-right, non-overlapping) occurrence of the literal
".csv", not only the first: for any path made of a dot-free stem, ".csv",
a dot-free middle, and a final ".csv", both occurrences come out
rewritten. (Replaced text is not rescanned, so the ".csv" inside an
inserted "_cleaned.csv" is not rewritten again.) -/
theorem clean_data_output_path_all_occurrences (p q : List Char)
    (hp : ∀ c ∈ p, c ≠ '.') (hq : ∀ c ∈ q, c ≠ '.') :
    derivedOutputPath (p ++ String.toList ".csv" ++ q ++ String.toList ".csv") =
      p ++ String.toList "_cleaned.csv" ++ q ++ String.toList "_cleaned.csv" := by
  have hcsv : String.toList ".csv" = '.' :: String.toList "csv" := rfl
  rw [derivedOutputPath, List.append_assoc, List.append_assoc, hcsv]
  rw [pyReplace_skip_no_dot _ _ p _ hp]
  rw [pyReplace_append_match _ _ _ (by simp)]
  rw [pyReplace_skip_no_dot _ _ q _ hq]
  have hm : pyReplace ('.' :: String.toList "csv") ('.' :: String.toList "csv")
      (String.toList "_cleaned.csv") = String.toList "_cleaned.csv" := by
    have h0 := pyReplace_append_match ('.' :: String.toList "csv") []
      (String.toList "_cleaned.csv") (by simp)
    rw [List.append_nil, pyReplace_nil, List.append_nil] at h0
    exact h0
  rw [hm]
  simp [List.append_assoc]

/-- Witness for `clean_data_output_path_all_occurrences` at the concrete
path "data.csv.csv" (stem "data", empty middle). -/
theorem clean_data_output_path_all_occurrences_witness :
    derivedOutputPath (String.toList "data" ++ String.toList ".csv" ++ [] ++ String.toList ".csv") =
      String.toList "data" ++ String.toList "_cleaned.csv" ++ [] ++ String.toList "_cleaned.csv" :=
  clean_data_output_path_all_occurrences (String.toList "data") []
    (by decide) (by decide)

/-- C8: with both flags false, `clean` returns a table identical in
content and row count to the input, and with `inplace = false` the
returned table is the independent copy, not the caller's object. -/
theorem clean_passthrough {α : Type} [DecidableEq α] (df : Table α) :
    ((AutoDataClean.mk false false).clean df).1 = df ∧
    ((AutoDataClean.mk false false).cleanCall df false).result = df ∧
    ((AutoDataClean.mk false false).cleanCall df false).callerTable = df ∧
    ((AutoDataClean.mk false false).cleanCall df false).resultIsCallerObject = false := by
  exact ⟨rfl, rfl, rfl, rfl⟩

/-- C2: row counts never grow, and the intermediate counts are monotone:
final row count (as reported) ≤ row count after the dedup stage (which is
the count recorded before null removal) ≤ original row count. -/
theorem clean_row_counts_monotone {α : Type} [DecidableEq α]
    (c : AutoDataClean) (df : Table α) :
    ((c.clean df).2).final_rows = ((c.clean df).1).rows.length ∧
    ((c.clean df).1).rows.length ≤ (stageDedup c df).rows.length ∧
    (stageDedup c df).rows.length ≤ df.rows.length ∧
    ((c.clean df).1).rows.length ≤ df.rows.length := by
  have h1 : (stageDedup c df).rows.length ≤ df.rows.length := by
    rw [stageDedup]
    by_cases h : c.remove_duplicates
    · rw [if_pos h]
      exact (dedupAux_sublist [] df.rows).length_le
    · rw [if_neg h]
  have h2 : ((c.clean df).1).rows.length ≤ (stageDedup c df).rows.length := by
    show (stageDropna c (stageDedup c df)).rows.length ≤ _
    rw [stageDropna]
    by_cases h : c.remove_nulls
    · rw [if_pos h]
      exact List.length_filter_le _ _
    · rw [if_neg h]
  exact ⟨rfl, h2, h1, le_trans h2 h1⟩

/-- C10: `clean` preserves the column names (set and order) and only ever
removes whole rows: the result's row list is a sublist of the input's, so
every retained row keeps its original values, in the original order. -/
theorem clean_preserves_columns_and_row_values {α : Type} [DecidableEq α]
    (c : AutoDataClean) (df : Table α) :
    ((c.clean df).1).columns = df.columns ∧
    List.Sublist ((c.clean df).1).rows df.rows := by
  obtain ⟨rd, rn⟩ := c
  cases rd <;> cases rn <;>
    simp only [AutoDataClean.clean, stageDedup, stageDropna, drop_duplicates, dropna,
      if_true, if_false, Bool.false_eq_true, and_true, true_and] <;>
    first
      | exact ⟨rfl, List.Sublist.refl _⟩
      | exact List.Sublist.refl _
      | exact List.filter_sublist _
      | exact dedupAux_sublist [] df.rows
      | exact (List.filter_sublist _).trans (dedupAux_sublist [] df.rows)

/-- C3: `clean` is idempotent for every configuration: a second pass with
the same flags returns the same table, and its report shows that nothing
further was removed (its before and after counts coincide). -/
theorem clean_idempotent {α : Type} [DecidableEq α]
    (c : AutoDataClean) (df : Table α) :
    (c.clean (c.clean df).1).1 = (c.clean df).1 ∧
    ((c.clean (c.clean df).1).2).original_rows =
      ((c.clean (c.clean df).1).2).final_rows := by
  obtain ⟨rd, rn⟩ := c
  have main : ((AutoDataClean.mk rd rn).clean ((AutoDataClean.mk rd rn).clean df).1).1 =
      ((AutoDataClean.mk rd rn).clean df).1 := by
    cases rd <;> cases rn <;>
      simp only [AutoDataClean.clean, stageDedup, stageDropna, drop_duplicates, dropna,
        if_true, if_false, Bool.false_eq_true]
    · exact congrArg (Table.mk df.columns) (filter_self_idem _ df.rows)
    · exact congrArg (Table.mk df.columns)
        (dedupAux_nil_of_nodup (dedupAux_nodup [] df.rows))
    · refine congrArg (Table.mk df.columns) ?_
      rw [dedupAux_nil_of_nodup ((dedupAux_nodup [] df.rows).filter _),
        filter_self_idem]
  refine ⟨main, ?_⟩
  show ((AutoDataClean.mk rd rn).clean df).1.rows.length =
    ((AutoDataClean.mk rd rn).clean ((AutoDataClean.mk rd rn).clean df).1).1.rows.length
  rw [main]

/-- C5: `get_summary` is a pure function of the table (the embedding takes
it by value and the source only calls non-mutating pandas inspections),
and each of its four figures equals a direct predicate count over the
unmodified table: the row count; the number of positions whose row equals
some strictly earlier row (first occurrences not counted); the number of
rows containing an absent value; and, per column, the number of rows whose
value in that column is absent. The figures are computed independently of
one another from the same table. -/
theorem get_summary_figures {α : Type} [DecidableEq α] (df : Table α) :
    (get_summary df).total_rows = df.rows.length ∧
    (get_summary df).duplicate_rows = specDuplicateRowCount df.rows ∧
    (get_summary df).rows_with_nulls =
      df.rows.countP (fun r => decide (∃ v ∈ r, v = none)) ∧
    (get_summary df).null_counts_per_column =
      df.columns.enum.map
        (fun p => (p.2, df.rows.countP (fun r => decide (r.getD p.1 none = none)))) := by
  refine ⟨rfl, dupCount_eq_spec df.rows, ?_, ?_⟩
  · show (df.rows.filter (fun r => rowHasNull r)).length = _
    rw [List.countP_eq_length_filter]
    have hf : (fun r : Row α => rowHasNull r) = (fun r => decide (∃ v ∈ r, v = none)) :=
      funext rowHasNull_eq_decide
    rw [hf]
  · show df.columns.enum.map _ = df.columns.enum.map _
    refine List.map_congr_left (fun p _ => ?_)
    refine congrArg (Prod.mk p.2) ?_
    rw [List.countP_eq_length_filter]
    have hf : (fun r : Row α => (r.getD p.1 none).isNone)
        = (fun r => decide (r.getD p.1 none = none)) :=
      funext (fun r => isNone_eq_decide _)
    rw [hf]

/-- C9: on an empty table (any columns) every configuration of `clean`
succeeds, returns the empty table unchanged, and reports 0 rows removed at
each enabled stage (`none` marks a disabled stage, which prints nothing). -/
theorem clean_empty_table {α : Type} [DecidableEq α]
    (c : AutoDataClean) (cols : List String) :
    (c.clean (⟨cols, []⟩ : Table α)).1 = ⟨cols, []⟩ ∧
    (c.clean (⟨cols, []⟩ : Table α)).2 =
      ⟨if c.remove_duplicates then some 0 else none,
       if c.remove_nulls then some 0 else none, 0, 0⟩ := by
  obtain ⟨rd, rn⟩ := c
  cases rd <;> cases rn <;> exact ⟨rfl, rfl⟩

end AutoClean
